import Mathlib

/-!
Verification of the telemetry latency-checker service.

The repository has two FastAPI handlers:
* `src/app.py` — `latency_check` (`POST /api/latency`): column auto-detection
  (`_find_column`), numeric coercion, region normalization, per-region
  aggregation with a null entry for unmatched regions.
* `src/api/app.py` — `check_latency` (`POST /`): fixed column names, raw
  region equality, unmatched regions are skipped (`continue`).

The embedding below translates both handlers.  Numbers are modelled as exact
rationals (`ℚ`); a pandas `NaN` is distinguished from a JSON `null` by the
`Val` type.  Strings are ASCII in all scenarios the claims exercise, so
`lowerStr` lowercases ASCII letters only, matching Python `str.lower` there,
and `stripStr` strips ASCII whitespace, matching `str.strip` there.
-/

/-- A cell of the loaded table.  `pd.read_csv` types each column; a cell is
either a string (`s`), a parsed number (`n`), or missing/`NaN` (`na`).
String cells model non-numeric text (a cell that fails `pd.to_numeric`). -/
inductive Cell where
  | s (v : String)
  | n (v : ℚ)
  | na
deriving DecidableEq, Repr

/-- The in-memory table: column names in order, and rows of cells parallel
to the column list. -/
structure Table where
  cols : List String
  rows : List (List Cell)
deriving DecidableEq, Repr

/-- A metric value as it appears in the JSON response: `null`, pandas `NaN`
(the float `nan`, which is not `null`), or a number. -/
inductive Val where
  | null
  | nan
  | num (q : ℚ)
deriving DecidableEq, Repr

/-- One per-region result record. -/
structure Entry where
  avg_latency : Val
  p95_latency : Val
  avg_uptime : Val
  breaches : ℕ
deriving DecidableEq, Repr

/-- The entry produced for a region with no matching rows
(src/app.py lines 83-90). -/
def nullEntry : Entry :=
  { avg_latency := Val.null, p95_latency := Val.null,
    avg_uptime := Val.null, breaches := 0 }

/-- ASCII lowercase of one character (Python `str.lower` on ASCII). -/
def charLower (c : Char) : Char :=
  if 'A' ≤ c ∧ c ≤ 'Z' then Char.ofNat (c.toNat + 32) else c

/-- ASCII lowercasing of a string, modelling Python `str.lower`. -/
def lowerStr (s : String) : String :=
  ⟨s.data.map charLower⟩

/-- ASCII whitespace, as stripped by Python `str.strip`. -/
def isSpaceChar (c : Char) : Bool :=
  c == ' ' || c == '\t' || c == '\n' || c == '\x0d' || c == '\x0b' || c == '\x0c'

/-- Strip leading and trailing whitespace, modelling Python `str.strip`. -/
def stripStr (s : String) : String :=
  ⟨((s.data.dropWhile isSpaceChar).reverse.dropWhile isSpaceChar).reverse⟩

/-- `isPrefixList a b` : the list `a` occurs at the start of `b`. -/
def isPrefixList : List Char → List Char → Bool
  | [], _ => true
  | _ :: _, [] => false
  | a :: as, b :: bs => a == b && isPrefixList as bs

/-- `occursIn needle hay` : `needle` occurs contiguously inside `hay`,
modelling Python's `needle in hay` on strings. -/
def occursIn (needle hay : List Char) : Bool :=
  match hay with
  | [] => needle.isEmpty
  | _ :: t => isPrefixList needle hay || occursIn needle t

/-- Lookup in the dict `{c.lower(): c for c in cols}` (src/app.py line 37):
a later column with the same lowercase overwrites an earlier one, so the
value is the last matching column. -/
def lowerDictGet (cols : List String) (cand : String) : Option String :=
  (cols.filter (fun c => lowerStr c == cand)).getLast?

/-- First pass of `_find_column` (src/app.py lines 38-40): the first
candidate, in priority order, that is a key of the lowercase dict. -/
def exactResolve (cols cands : List String) : Option String :=
  cands.findSome? (fun cand => lowerDictGet cols cand)

/-- Second pass of `_find_column` (src/app.py lines 42-45): for each column
in table order, for each candidate in priority order, return the column if
the candidate occurs inside the lowercased column name. -/
def substringResolve (cols cands : List String) : Option String :=
  cols.find? (fun col => cands.any (fun cand => occursIn cand.data (lowerStr col).data))

/-- `_find_column` (src/app.py lines 36-46): exact pass, then substring
fallback, else `none`. -/
def _find_column (cols cands : List String) : Option String :=
  match exactResolve cols cands with
  | some c => some c
  | none => substringResolve cols cands

/-- Latency candidate names (src/app.py line 56). -/
def latencyCandidates : List String := ["latency_ms", "latency", "rtt", "ping_ms", "ping"]

/-- Region candidate names (src/app.py line 57). -/
def regionCandidates : List String := ["region", "region_name", "area", "location"]

/-- Uptime candidate names (src/app.py line 58). -/
def uptimeCandidates : List String := ["uptime", "availability", "up", "availability_pct"]

/-- Round a rational to the nearest integer, ties to even: the behaviour of
Python's `round` on exactly-representable values. -/
def pyRoundInt (x : ℚ) : ℤ :=
  let f := Rat.floor x
  let r := x - (f : ℚ)
  if r < 1 / 2 then f
  else if 1 / 2 < r then f + 1
  else if f % 2 = 0 then f else f + 1

/-- Python `round(x, d)`, modelled exactly on rationals. -/
def pyRound (d : ℕ) (x : ℚ) : ℚ :=
  (pyRoundInt (x * 10 ^ d) : ℚ) / 10 ^ d

/-- Apply `round(·, d)` to a metric value; `round` of `NaN` is `NaN` and
`null` is never rounded (src/app.py lines 108-110). -/
def roundVal (d : ℕ) : Val → Val
  | Val.num q => Val.num (pyRound d q)
  | v => v

/-- Numeric view of a coerced cell: `pd.to_numeric(col, errors="coerce")`
leaves a number and turns anything else into `NaN` (src/app.py line 66). -/
def cellNum : Cell → Option ℚ
  | Cell.n q => some q
  | _ => none

/-- The coercion `pd.to_numeric(col, errors="coerce")` as a cell map. -/
def toNumericCell (c : Cell) : Cell :=
  match c with
  | Cell.n q => Cell.n q
  | _ => Cell.na

/-- Mean of a coerced column slice, skipping missing values as
`Series.mean` does; the mean of an all-missing slice is `NaN`. -/
def meanVal (vals : List (Option ℚ)) : Val :=
  let valid := vals.filterMap id
  if valid.isEmpty then Val.nan else Val.num (valid.sum / valid.length)

/-- Insert into a sorted list, keeping order. -/
def insertSorted (x : ℚ) : List ℚ → List ℚ
  | [] => [x]
  | y :: t => if x ≤ y then x :: y :: t else y :: insertSorted x t

/-- Ascending insertion sort. -/
def sortQ : List ℚ → List ℚ
  | [] => []
  | x :: t => insertSorted x (sortQ t)

/-- Quantile by linear interpolation between the two nearest ranks, the
default method of `Series.quantile` (pandas), on the sorted values:
position `h = q·(n-1)`, result `s[⌊h⌋] + (h-⌊h⌋)·(s[⌊h⌋+1] - s[⌊h⌋])`. -/
def quantileLinear (q : ℚ) (vals : List ℚ) : Option ℚ :=
  match sortQ vals with
  | [] => none
  | x :: t =>
    let s := x :: t
    let n := s.length
    let h : ℚ := q * (n - 1)
    let i : ℕ := (Rat.floor h).toNat
    let lo := s.getD i 0
    let hi := s.getD (min (i + 1) (n - 1)) 0
    some (lo + (h - (i : ℚ)) * (hi - lo))

/-- `Series.quantile(0.95)` on a coerced column slice: missing values are
skipped; the quantile of an all-missing slice is `NaN`
(src/app.py line 94). -/
def quantileVal (vals : List (Option ℚ)) : Val :=
  match quantileLinear (19 / 20) (vals.filterMap id) with
  | some v => Val.num v
  | none => Val.nan

/-- Python `str` of a cell value, as used by `.astype(str)`: a string cell
is itself, a missing cell prints as `nan`, and a numeric cell prints its
value (exact for integer-valued ids; the float form is approximated, and no
claim exercises it). -/
def cellStr : Cell → String
  | Cell.s v => v
  | Cell.na => "nan"
  | Cell.n q => if q.den = 1 then toString q.num else toString q.num ++ "/" ++ toString q.den

/-- A pandas column has `object` dtype when it holds strings
(src/app.py line 72). -/
def isObjectCol (cells : List Cell) : Bool :=
  cells.any (fun c => match c with | Cell.s _ => true | _ => false)

/-- The `_region_norm` column (src/app.py lines 72-76): for an
`object`-dtype region column, `astype(str).str.strip().str.lower()`;
otherwise `astype(str)`. -/
def normalizeRegion (cells : List Cell) : List String :=
  if isObjectCol cells then cells.map (fun c => lowerStr (stripStr (cellStr c)))
  else cells.map cellStr

/-- `df[c]`: the cells of column `c` in row order (missing trailing cells
of a ragged row read as `na`; a column name not present yields `[]`, which
the handler never requests). -/
def getColCells (t : Table) (c : String) : List Cell :=
  match t.cols.findIdx? (fun x => x == c) with
  | none => []
  | some i => t.rows.map (fun r => r.getD i Cell.na)

/-- The rows of a column slice restricted to the rows whose normalized
region key equals `key`: `df[df["_region_norm"] == key][c]`
(src/app.py line 81). -/
def matchedCells (cells : List Cell) (normKeys : List String) (key : String) : List Cell :=
  ((cells.zip normKeys).filter (fun p => p.2 == key)).map (fun p => p.1)

/-- The uptime rescale heuristic (src/app.py lines 96-103): a raw mean
strictly above `1.5` is treated as a percentage and divided by 100; `NaN`
compares false and is kept; `null` only arises when there is no uptime
column and is untouched. -/
def rescaleVal : Val → Val
  | Val.num q => if 3 / 2 < q then Val.num (q / 100) else Val.num q
  | v => v

/-- The breach predicate on one coerced latency cell
(src/app.py line 105): strictly greater than the threshold; a missing
value compares false. -/
def isBreach (threshold : ℚ) (v : Option ℚ) : Bool :=
  match v with
  | some x => decide (threshold < x)
  | none => false

/-- The Metric Result for one requested region (src/app.py lines 79-112):
normalize the requested key, select matching rows, return the null entry
when none match, otherwise mean / 95th-percentile / rescaled-mean-uptime /
strict-breach count, rounded to 3, 3, 6 digits. -/
def entryFor (latCells : List Cell) (upCellsOpt : Option (List Cell))
    (normKeys : List String) (threshold : ℚ) (region : String) : Entry :=
  let key := lowerStr (stripStr region)
  if normKeys.contains key = false then nullEntry
  else
    let latVals := (matchedCells latCells normKeys key).map cellNum
    let avg_latency := meanVal latVals
    let p95_latency := quantileVal latVals
    let avg_uptime :=
      match upCellsOpt with
      | none => Val.null
      | some upCells =>
        rescaleVal (meanVal ((matchedCells upCells normKeys key).map cellNum))
    let breaches := latVals.countP (isBreach threshold)
    { avg_latency := roundVal 3 avg_latency,
      p95_latency := roundVal 3 p95_latency,
      avg_uptime := roundVal 6 avg_uptime,
      breaches := breaches }

/-- Python dict insertion `m[k] = v`: replace the value when the key is
present, otherwise append the pair. -/
def dictInsert (m : List (String × Entry)) (k : String) (v : Entry) : List (String × Entry) :=
  if m.any (fun p => p.1 == k) then m.map (fun p => if p.1 == k then (p.1, v) else p)
  else m ++ [(k, v)]

/-- The response dict of `latency_check` (src/app.py lines 78-112): one
dict insertion per requested region, keyed by the caller's original key. -/
def buildOut (latCells : List Cell) (upCellsOpt : Option (List Cell))
    (normKeys : List String) (threshold : ℚ) (regions : List String) : List (String × Entry) :=
  regions.foldl (fun m r => dictInsert m r (entryFor latCells upCellsOpt normKeys threshold r)) []

/-- Global load state set at import time (src/app.py lines 24-30): either
the table, or the stringified load exception. -/
inductive LoadState where
  | failed (msg : String)
  | loaded (t : Table)
deriving DecidableEq

/-- The request payload (src/app.py lines 32-34). -/
structure Payload where
  regions : List String
  threshold_ms : ℚ
deriving DecidableEq

/-- An `HTTPException`: status code and detail string. -/
structure HError where
  status : ℕ
  detail : String
deriving DecidableEq

/-- Detail of the latency-column resolution failure (src/app.py line 61). -/
def latencyErrDetail : String :=
  "Could not detect latency column (expected names: latency_ms, latency, rtt, ping_ms)"

/-- Detail of the region-column resolution failure (src/app.py line 63). -/
def regionErrDetail : String :=
  "Could not detect region column (expected names: region, region_name, area)"

/-- The `POST /api/latency` handler `latency_check`
(src/app.py lines 48-114).  The response is the dict as an ordered
association list.  `df = _df.copy()` makes every later column assignment
act on the request-local copy, so the handler is a pure function of the
load state and payload. -/
def latency_check (st : LoadState) (p : Payload) : Except HError (List (String × Entry)) :=
  match st with
  | LoadState.failed msg =>
    Except.error ⟨500, "Telemetry CSV not loaded: " ++ msg⟩
  | LoadState.loaded t =>
    let df := t
    match _find_column df.cols latencyCandidates with
    | none => Except.error ⟨400, latencyErrDetail⟩
    | some latency_col =>
      match _find_column df.cols regionCandidates with
      | none => Except.error ⟨400, regionErrDetail⟩
      | some region_col =>
        let uptime_col := _find_column df.cols uptimeCandidates
        let latCells := (getColCells df latency_col).map toNumericCell
        let upCellsOpt := uptime_col.map (fun c => (getColCells df c).map toNumericCell)
        let normKeys := normalizeRegion (getColCells df region_col)
        Except.ok (buildOut latCells upCellsOpt normKeys p.threshold_ms p.regions)

/-- The handler as a transition on the process-global state: the only
global it touches is `_df`, read once into the copy `df`
(src/app.py line 53); every later column assignment (lines 66, 68, 73, 76)
targets the copy, so the global state component is returned unchanged. -/
def processQuery (st : LoadState) (p : Payload) :
    Except HError (List (String × Entry)) × LoadState :=
  (latency_check st p, st)

/-- Element-wise `telemetry["region"] == region` for one cell
(src/api/app.py line 29): a pandas equality of a column against a Python
string is `True` only on equal string cells. -/
def cellEqStr (c : Cell) (r : String) : Bool :=
  match c with
  | Cell.s v => v == r
  | _ => false

/-- `np.percentile(xs, 95)` (src/api/app.py line 34): unlike
`Series.quantile`, `np.percentile` does not skip missing values — any
`NaN` in the data makes the result `NaN`. -/
def npPercentileVal (vals : List (Option ℚ)) : Val :=
  if vals.any (fun v => v.isNone) then Val.nan
  else
    match quantileLinear (19 / 20) (vals.filterMap id) with
    | some v => Val.num v
    | none => Val.nan

/-- The `POST /` handler `check_latency` (src/api/app.py lines 21-45):
fixed column names, raw (un-normalized) region equality, and — unlike
`latency_check` — a region with no matching rows is skipped
(`continue`, line 31) instead of receiving a null entry. -/
def check_latency (telemetry : Table) (regions : List String) (threshold : ℚ) :
    List (String × Entry) :=
  regions.foldl
    (fun m region =>
      let mask := (getColCells telemetry "region").map (fun c => cellEqStr c region)
      if mask.all (fun b => b == false) then m
      else
        let lat := (((getColCells telemetry "latency_ms").zip mask).filter
          (fun p => p.2)).map (fun p => cellNum p.1)
        let upt := (((getColCells telemetry "uptime").zip mask).filter
          (fun p => p.2)).map (fun p => cellNum p.1)
        dictInsert m region
          { avg_latency := roundVal 2 (meanVal lat),
            p95_latency := roundVal 2 (npPercentileVal lat),
            avg_uptime := roundVal 3 (meanVal upt),
            breaches := lat.countP (isBreach threshold) }) []

/-- The successfully coerced numeric values of a column slice restricted to
the rows matching `key` (the values over which `latency_check`'s means,
percentiles and breach counts range). -/
def matchedNums (cells : List Cell) (normKeys : List String) (key : String) : List ℚ :=
  ((matchedCells cells normKeys key).map cellNum).filterMap id

/-- The raw arithmetic mean (sum over count) of the successfully coerced
values of a column slice restricted to the rows matching `key`. -/
def rawMean (cells : List Cell) (normKeys : List String) (key : String) : ℚ :=
  (matchedNums cells normKeys key).sum / (matchedNums cells normKeys key).length

/-- Five samples in one region with latencies 10..50 (spec §8 percentile
example). -/
def p95ExampleTable : Table :=
  { cols := ["region", "latency_ms"],
    rows := [[Cell.s "a", Cell.n 10], [Cell.s "a", Cell.n 20], [Cell.s "a", Cell.n 30],
             [Cell.s "a", Cell.n 40], [Cell.s "a", Cell.n 50]] }

/-- The end-to-end scenario table of spec §8: mixed-case region with
trailing whitespace, uptime as a fraction in one row and a percentage in
the other. -/
def e2eExampleTable : Table :=
  { cols := ["region", "latency_ms", "uptime"],
    rows := [[Cell.s "US-East ", Cell.n 100, Cell.n (99 / 100)],
             [Cell.s "us-east", Cell.n 300, Cell.n 99]] }

/-- The missing-role scenario table of spec §8: columns `[timestamp, value]`
resolve neither the Latency nor the Region role. -/
def badSchemaTable : Table :=
  { cols := ["timestamp", "value"], rows := [] }

/-- A one-row table for the `check_latency` endpoint with the fixed column
names it expects. -/
def apiExampleTable : Table :=
  { cols := ["region", "latency_ms", "uptime"],
    rows := [[Cell.s "us-east", Cell.n 100, Cell.n 1]] }

/-! ### Helper lemmas -/

theorem lowerDictGet_eq_some {cols : List String} {cand col : String}
    (h : lowerDictGet cols cand = some col) : col ∈ cols ∧ lowerStr col = cand := by
  have hmem := List.mem_of_getLast?_eq_some h
  have := List.mem_filter.mp hmem
  exact ⟨this.1, by simpa using this.2⟩

theorem lowerDictGet_isSome {cols : List String} {cand col : String}
    (hc : col ∈ cols) (hl : lowerStr col = cand) : lowerDictGet cols cand ≠ none := by
  intro hnone
  have : cols.filter (fun c => lowerStr c == cand) = [] :=
    List.getLast?_eq_none_iff.mp hnone
  have hmem : col ∈ cols.filter (fun c => lowerStr c == cand) :=
    List.mem_filter.mpr ⟨hc, by simp [hl]⟩
  rw [this] at hmem
  exact (List.not_mem_nil col) hmem

theorem countP_isBreach_eq (th : ℚ) (vals : List (Option ℚ)) :
    vals.countP (isBreach th) = (vals.filterMap id).countP (fun v => decide (th < v)) := by
  induction vals with
  | nil => rfl
  | cons v t ih =>
    cases v with
    | none => simpa [List.countP_cons, isBreach] using ih
    | some x =>
      by_cases h : th < x <;>
        simp [List.countP_cons, List.filterMap_cons, isBreach, h, ih]

theorem insertSorted_ne_nil (x : ℚ) (l : List ℚ) : insertSorted x l ≠ [] := by
  cases l with
  | nil => simp [insertSorted]
  | cons y t =>
    by_cases h : x ≤ y <;> simp [insertSorted, h]

theorem sortQ_eq_nil_iff (l : List ℚ) : sortQ l = [] ↔ l = [] := by
  cases l with
  | nil => simp [sortQ]
  | cons x t => simp [sortQ, insertSorted_ne_nil]

theorem quantileVal_nan {vals : List (Option ℚ)} (h : vals.filterMap id = []) :
    quantileVal vals = Val.nan := by
  unfold quantileVal quantileLinear
  rw [h]
  simp [sortQ]

theorem quantileVal_ne_null (vals : List (Option ℚ)) : quantileVal vals ≠ Val.null := by
  unfold quantileVal
  cases quantileLinear (19 / 20) (vals.filterMap id) <;> simp

theorem bool_eq_false {b : Bool} (h : ¬ b = true) : b = false := by
  cases b
  · rfl
  · exact absurd rfl h

theorem meanVal_ne_null (vals : List (Option ℚ)) : meanVal vals ≠ Val.null := by
  unfold meanVal
  by_cases h : (vals.filterMap id).isEmpty <;> simp [h]

theorem meanVal_nan {vals : List (Option ℚ)} (h : vals.filterMap id = []) :
    meanVal vals = Val.nan := by
  simp [meanVal, h]

theorem meanVal_num {vals : List (Option ℚ)} (h : vals.filterMap id ≠ []) :
    meanVal vals =
      Val.num ((vals.filterMap id).sum / (vals.filterMap id).length) := by
  simp [meanVal, List.isEmpty_iff, h]

theorem roundVal_eq_null_iff (d : ℕ) (v : Val) : roundVal d v = Val.null ↔ v = Val.null := by
  cases v <;> simp [roundVal]

theorem lookup_replace_hit (k : String) (v : Entry) (m : List (String × Entry))
    (h : m.any (fun p => p.1 == k) = true) :
    (m.map (fun p => if p.1 == k then (p.1, v) else p)).lookup k = some v := by
  induction m with
  | nil => simp at h
  | cons p t ih =>
    obtain ⟨a, b⟩ := p
    by_cases hp : a = k
    · subst hp
      rw [List.map_cons, if_pos (by simp)]
      simp [List.lookup]
    · have hp' : ¬((a, b).1 == k) = true := by simp [hp]
      have ht : t.any (fun p => p.1 == k) = true := by
        simpa [List.any_cons, hp'] using h
      have hk : (k == a) = false := by simp [Ne.symm hp]
      rw [List.map_cons, if_neg hp']
      simpa [List.lookup, hk] using ih ht

theorem lookup_replace_ne (k k' : String) (v : Entry) (m : List (String × Entry))
    (h : k' ≠ k) :
    (m.map (fun p => if p.1 == k then (p.1, v) else p)).lookup k' = m.lookup k' := by
  induction m with
  | nil => rfl
  | cons p t ih =>
    obtain ⟨a, b⟩ := p
    by_cases hp : a = k
    · have hk : (k' == a) = false := by simp [hp, h]
      rw [List.map_cons, if_pos (by simp [hp])]
      simpa [List.lookup, hk] using ih
    · have hp' : ¬((a, b).1 == k) = true := by simp [hp]
      rw [List.map_cons, if_neg hp']
      by_cases hk : k' = a
      · simp [List.lookup, hk]
      · have hk' : (k' == a) = false := by simp [hk]
        simpa [List.lookup, hk'] using ih

theorem lookup_not_any (k : String) (m : List (String × Entry))
    (h : m.any (fun p => p.1 == k) = false) : m.lookup k = none := by
  induction m with
  | nil => rfl
  | cons p t ih =>
    obtain ⟨a, b⟩ := p
    simp only [List.any_cons, Bool.or_eq_false_iff] at h
    have hk : (k == a) = false := by
      have : a ≠ k := by simpa using h.1
      simp [Ne.symm this]
    simpa [List.lookup, hk] using ih h.2

theorem lookup_append_cases (k : String) (m l : List (String × Entry)) :
    (m ++ l).lookup k =
      match m.lookup k with
      | some w => some w
      | none => l.lookup k := by
  induction m with
  | nil => rfl
  | cons p t ih =>
    obtain ⟨a, b⟩ := p
    by_cases hk : (k == a) = true
    · simp [List.lookup, hk]
    · have hk' : (k == a) = false := by simpa using hk
      simpa [List.lookup, hk'] using ih

theorem dictInsert_lookup_self (m : List (String × Entry)) (k : String) (v : Entry) :
    (dictInsert m k v).lookup k = some v := by
  unfold dictInsert
  by_cases h : m.any (fun p => p.1 == k)
  · simp only [h, if_true]
    exact lookup_replace_hit k v m h
  · simp only [h, Bool.false_eq_true, if_false]
    rw [lookup_append_cases, lookup_not_any k m (bool_eq_false h)]
    simp [List.lookup]

theorem dictInsert_lookup_ne (m : List (String × Entry)) (k k' : String) (v : Entry)
    (h : k' ≠ k) : (dictInsert m k v).lookup k' = m.lookup k' := by
  unfold dictInsert
  by_cases hany : m.any (fun p => p.1 == k)
  · simp only [hany, if_true]
    exact lookup_replace_ne k k' v m h
  · simp only [hany, Bool.false_eq_true, if_false]
    rw [lookup_append_cases]
    cases hm : m.lookup k' with
    | some w => rfl
    | none =>
      have hne : (k' == k) = false := by simp [h]
      simp [List.lookup, hne]

theorem keys_replace (k : String) (v : Entry) (m : List (String × Entry)) :
    (m.map (fun p => if p.1 == k then (p.1, v) else p)).map Prod.fst = m.map Prod.fst := by
  induction m with
  | nil => rfl
  | cons p t ih =>
    obtain ⟨a, b⟩ := p
    by_cases hp : a = k
    · rw [List.map_cons, if_pos (by simp [hp])]
      simp only [List.map_cons, ih]
    · rw [List.map_cons, if_neg (by simp [hp])]
      simp only [List.map_cons, ih]

theorem mem_keys_of_any_true {m : List (String × Entry)} {k : String}
    (h : m.any (fun p => p.1 == k) = true) : k ∈ m.map Prod.fst := by
  rcases List.any_eq_true.mp h with ⟨p, hp, hpk⟩
  have hk : p.1 = k := by simpa using hpk
  exact List.mem_map.mpr ⟨p, hp, hk⟩

theorem not_mem_keys_of_any_false {m : List (String × Entry)} {k : String}
    (h : m.any (fun p => p.1 == k) = false) : k ∉ m.map Prod.fst := by
  intro hk
  rcases List.mem_map.mp hk with ⟨p, hp, hpk⟩
  have hbeq : (p.1 == k) = true := by rw [hpk]; exact beq_self_eq_true k
  have hany : m.any (fun p => p.1 == k) = true := by
    rw [List.any_eq_true]
    exact ⟨p, hp, hbeq⟩
  rw [h] at hany
  exact Bool.false_ne_true hany

theorem dictInsert_mem_keys (m : List (String × Entry)) (k v k') :
    k' ∈ (dictInsert m k v).map Prod.fst ↔ k' ∈ m.map Prod.fst ∨ k' = k := by
  unfold dictInsert
  by_cases h : m.any (fun p => p.1 == k)
  · simp only [h, if_true, keys_replace]
    constructor
    · exact Or.inl
    · rintro (hm | rfl)
      · exact hm
      · exact mem_keys_of_any_true h
  · simp only [h, Bool.false_eq_true, if_false, List.map_append]
    simp

theorem dictInsert_nodup (m : List (String × Entry)) (k : String) (v : Entry)
    (h : (m.map Prod.fst).Nodup) : ((dictInsert m k v).map Prod.fst).Nodup := by
  unfold dictInsert
  by_cases hany : m.any (fun p => p.1 == k)
  · simpa only [hany, if_true, keys_replace] using h
  · simp only [hany, Bool.false_eq_true, if_false, List.map_append]
    rw [List.nodup_append]
    refine ⟨h, List.nodup_singleton _, ?_⟩
    intro a ha hb
    simp only [List.map_cons, List.map_nil, List.mem_singleton] at hb
    subst hb
    exact not_mem_keys_of_any_false (bool_eq_false hany) ha

theorem foldl_dictInsert_spec (f : String → Entry) (regions : List String)
    (m : List (String × Entry)) :
    ((m.map Prod.fst).Nodup →
      (((regions.foldl (fun acc r => dictInsert acc r (f r)) m).map Prod.fst).Nodup))
    ∧ (∀ k, k ∈ (regions.foldl (fun acc r => dictInsert acc r (f r)) m).map Prod.fst ↔
        k ∈ m.map Prod.fst ∨ k ∈ regions)
    ∧ (∀ k ∈ regions,
        (regions.foldl (fun acc r => dictInsert acc r (f r)) m).lookup k = some (f k))
    ∧ (∀ k, k ∉ regions →
        (regions.foldl (fun acc r => dictInsert acc r (f r)) m).lookup k = m.lookup k) := by
  induction regions generalizing m with
  | nil => simp
  | cons r rest ih =>
    have ihm := ih (dictInsert m r (f r))
    simp only [List.foldl_cons]
    refine ⟨?_, ?_, ?_, ?_⟩
    · intro h
      exact ihm.1 (dictInsert_nodup m r (f r) h)
    · intro k
      rw [ihm.2.1 k, dictInsert_mem_keys]
      simp only [List.mem_cons]
      tauto
    · intro k hk
      rcases List.mem_cons.mp hk with rfl | hkr
      · by_cases hrest : k ∈ rest
        · exact ihm.2.2.1 k hrest
        · rw [ihm.2.2.2 k hrest, dictInsert_lookup_self]
      · exact ihm.2.2.1 k hkr
    · intro k hk
      have hkr : k ≠ r := fun h => hk (h ▸ List.mem_cons_self r rest)
      have hkrest : k ∉ rest := fun h => hk (List.mem_cons_of_mem r h)
      rw [ihm.2.2.2 k hkrest, dictInsert_lookup_ne m r k (f r) hkr]

theorem matchedCells_nil_of_not_contains {cells : List Cell} {normKeys : List String}
    {key : String} (h : normKeys.contains key = false) :
    matchedCells cells normKeys key = [] := by
  unfold matchedCells
  have hkey : key ∉ normKeys := by simpa using h
  have : (cells.zip normKeys).filter (fun p => p.2 == key) = [] := by
    rw [List.filter_eq_nil_iff]
    intro p hp
    have hmem := (List.of_mem_zip hp).2
    intro hbeq
    have heq : p.2 = key := by simpa using hbeq
    exact hkey (heq ▸ hmem)
  rw [this]
  rfl

/-! ### Claim theorems -/

/-- C2: if some candidate has an exact (case-insensitive, candidates being
lowercase patterns) match among the available columns, `_find_column`
returns a column that exactly matches a candidate — never one that only
matches as a substring — and the substring fallback is consulted only when
the exact pass found nothing. -/
theorem find_column_exact_match_priority (cols cands : List String) :
    ((∃ cand ∈ cands, ∃ col ∈ cols, lowerStr col = cand) →
      ∃ col, col ∈ cols ∧ lowerStr col ∈ cands ∧ _find_column cols cands = some col)
    ∧ (exactResolve cols cands = none →
      _find_column cols cands = substringResolve cols cands) := by
  constructor
  · rintro ⟨cand, hcand, col, hcol, hlow⟩
    have hne : exactResolve cols cands ≠ none := by
      intro hnone
      unfold exactResolve at hnone
      have hall := List.findSome?_eq_none_iff.mp hnone
      exact lowerDictGet_isSome hcol hlow (hall cand hcand)
    cases hres : exactResolve cols cands with
    | none => exact absurd hres hne
    | some c =>
      have hres' : cands.findSome? (fun cand => lowerDictGet cols cand) = some c := hres
      rcases List.exists_of_findSome?_eq_some hres' with ⟨cand', hcand', hget⟩
      rcases lowerDictGet_eq_some hget with ⟨hmem, hlow'⟩
      refine ⟨c, hmem, ?_, ?_⟩
      · rw [hlow']; exact hcand'
      · unfold _find_column
        rw [hres]
  · intro h
    unfold _find_column
    rw [h]

theorem find_column_exact_match_priority_witness :
    (∃ col, col ∈ ["Latency_MS", "xlatencyx"] ∧ lowerStr col ∈ ["latency_ms"] ∧
      _find_column ["Latency_MS", "xlatencyx"] ["latency_ms"] = some col)
    ∧ _find_column ["timestamp"] ["latency"] = substringResolve ["timestamp"] ["latency"] :=
  ⟨(find_column_exact_match_priority ["Latency_MS", "xlatencyx"] ["latency_ms"]).1
      ⟨"latency_ms", by decide, "Latency_MS", by decide, by decide⟩,
    (find_column_exact_match_priority ["timestamp"] ["latency"]).2 (by decide)⟩

/-- C8: when the startup load failed, every query — whatever its payload —
is rejected with the server-side 500 error carrying the original load
failure message; the result does not depend on the payload, so no column
resolution or per-region computation is ever reached. -/
theorem load_failure_rejects_every_query (msg : String) (p : Payload) :
    latency_check (LoadState.failed msg) p =
      Except.error ⟨500, "Telemetry CSV not loaded: " ++ msg⟩ := rfl

/-- C9: a query never mutates the loaded table: the global state after the
handler runs is the state before it, so two queries against the same loaded
state observe the same data and produce identical responses. -/
theorem query_preserves_state (st : LoadState) (p q : Payload) :
    (processQuery st p).2 = st
    ∧ (processQuery (processQuery st p).2 q).1 = (processQuery st q).1 :=
  ⟨rfl, rfl⟩

/-- C1 (amended): in the `latency_check` endpoint (src/app.py), when the
latency and region roles resolve, the response holds exactly one entry per
submitted region key, keyed by the caller's original key, and a key whose
normalized form matches no row maps to the null entry with `breaches: 0`.
(The `check_latency` endpoint of src/api/app.py instead omits such keys —
see the counterexample.) -/
theorem latency_check_entry_per_region (t : Table) (p : Payload) (lc rc : String)
    (hl : _find_column t.cols latencyCandidates = some lc)
    (hr : _find_column t.cols regionCandidates = some rc) :
    ∃ out, latency_check (LoadState.loaded t) p = Except.ok out ∧
      (out.map Prod.fst).Nodup ∧
      (∀ k, k ∈ out.map Prod.fst ↔ k ∈ p.regions) ∧
      (∀ r ∈ p.regions,
        out.lookup r = some (entryFor ((getColCells t lc).map toNumericCell)
            ((_find_column t.cols uptimeCandidates).map
              (fun c => (getColCells t c).map toNumericCell))
            (normalizeRegion (getColCells t rc)) p.threshold_ms r) ∧
        ((normalizeRegion (getColCells t rc)).contains (lowerStr (stripStr r)) = false →
          out.lookup r = some nullEntry)) := by
  refine ⟨buildOut ((getColCells t lc).map toNumericCell)
      ((_find_column t.cols uptimeCandidates).map
        (fun c => (getColCells t c).map toNumericCell))
      (normalizeRegion (getColCells t rc)) p.threshold_ms p.regions, ?_, ?_, ?_, ?_⟩
  · simp only [latency_check, hl, hr]
  · exact (foldl_dictInsert_spec _ p.regions []).1 (by simp)
  · intro k
    unfold buildOut
    rw [(foldl_dictInsert_spec _ p.regions []).2.1 k]
    simp
  · intro r hr'
    unfold buildOut
    have hlook := (foldl_dictInsert_spec
      (fun r => entryFor ((getColCells t lc).map toNumericCell)
        ((_find_column t.cols uptimeCandidates).map
          (fun c => (getColCells t c).map toNumericCell))
        (normalizeRegion (getColCells t rc)) p.threshold_ms r)
      p.regions []).2.2.1 r hr'
    refine ⟨hlook, ?_⟩
    intro hnone
    rw [hlook]
    have : entryFor ((getColCells t lc).map toNumericCell)
        ((_find_column t.cols uptimeCandidates).map
          (fun c => (getColCells t c).map toNumericCell))
        (normalizeRegion (getColCells t rc)) p.threshold_ms r = nullEntry := by
      unfold entryFor
      rw [if_pos hnone]
    rw [this]

theorem latency_check_entry_per_region_witness :
    ∃ out, latency_check (LoadState.loaded apiExampleTable) ⟨["nowhere"], 150⟩ =
        Except.ok out ∧
      (out.map Prod.fst).Nodup ∧
      (∀ k, k ∈ out.map Prod.fst ↔ k ∈ (["nowhere"] : List String)) ∧
      (∀ r ∈ (["nowhere"] : List String),
        out.lookup r = some (entryFor
            ((getColCells apiExampleTable "latency_ms").map toNumericCell)
            ((_find_column apiExampleTable.cols uptimeCandidates).map
              (fun c => (getColCells apiExampleTable c).map toNumericCell))
            (normalizeRegion (getColCells apiExampleTable "region")) 150 r) ∧
        ((normalizeRegion (getColCells apiExampleTable "region")).contains
            (lowerStr (stripStr r)) = false →
          out.lookup r = some nullEntry)) :=
  latency_check_entry_per_region apiExampleTable ⟨["nowhere"], 150⟩ "latency_ms" "region"
    (by decide) (by decide)

/-- C1 (counterexample): the `check_latency` endpoint (src/api/app.py)
violates the claim: against a loaded table whose columns resolve both
roles, a submitted region key matching no row is omitted from the response
instead of receiving the null entry — here the response is empty. -/
theorem check_latency_omits_unmatched_region :
    check_latency apiExampleTable ["nowhere"] 150 = [] := by decide

/-- C3: for a region with at least one matched row and a resolved uptime
column, the reported `avg_uptime` is the raw mean of the coerced uptime
values, divided by 100 exactly when that raw mean exceeds 1.5, and rounded
to 6 decimal digits; with no uptime column it is `null`. -/
theorem avg_uptime_rescale (latCells upCells : List Cell) (normKeys : List String)
    (th : ℚ) (region : String)
    (hmatch : normKeys.contains (lowerStr (stripStr region)) = true)
    (hvalid : matchedNums upCells normKeys (lowerStr (stripStr region)) ≠ []) :
    ((rawMean upCells normKeys (lowerStr (stripStr region)) ≤ 3 / 2 →
      (entryFor latCells (some upCells) normKeys th region).avg_uptime =
        Val.num (pyRound 6 (rawMean upCells normKeys (lowerStr (stripStr region)))))
    ∧ (3 / 2 < rawMean upCells normKeys (lowerStr (stripStr region)) →
      (entryFor latCells (some upCells) normKeys th region).avg_uptime =
        Val.num (pyRound 6 (rawMean upCells normKeys (lowerStr (stripStr region)) / 100))))
    ∧ (entryFor latCells none normKeys th region).avg_uptime = Val.null := by
  have hc : ¬ (normKeys.contains (lowerStr (stripStr region)) = false) := by
    rw [hmatch]
    intro hfalse
    exact Bool.false_ne_true hfalse.symm
  have hmean : meanVal ((matchedCells upCells normKeys (lowerStr (stripStr region))).map cellNum) =
      Val.num (rawMean upCells normKeys (lowerStr (stripStr region))) := by
    rw [meanVal_num hvalid]
    rfl
  refine ⟨⟨?_, ?_⟩, ?_⟩
  · intro hle
    have hnot : ¬ (3 / 2 < rawMean upCells normKeys (lowerStr (stripStr region))) :=
      not_lt.mpr hle
    unfold entryFor
    rw [if_neg hc]
    simp only [hmean, rescaleVal, if_neg hnot, roundVal]
  · intro hgt
    unfold entryFor
    rw [if_neg hc]
    simp only [hmean, rescaleVal, if_pos hgt, roundVal]
  · unfold entryFor
    by_cases h : normKeys.contains (lowerStr (stripStr region)) = false
    · rw [if_pos h]
      rfl
    · rw [if_neg h]
      rfl

theorem avg_uptime_rescale_witness :
    (entryFor [Cell.n 1] (some [Cell.n 2]) ["a"] 0 "a").avg_uptime =
      Val.num (pyRound 6 (rawMean [Cell.n 2] ["a"] (lowerStr (stripStr "a")) / 100)) :=
  ((avg_uptime_rescale [Cell.n 1] [Cell.n 2] ["a"] 0 "a" (by decide) (by decide)).1.2
    (by
      have h2 : matchedNums [Cell.n 2] ["a"] (lowerStr (stripStr "a")) = [2] := by decide
      unfold rawMean
      rw [h2]
      norm_num))

/-- C4: the reported `breaches` equals the number of matched rows whose
coerced latency value is strictly greater than the threshold: a value equal
to the threshold does not satisfy `threshold < v`, and a row whose latency
failed coercion is dropped by the `filterMap` before counting, so it never
counts. -/
theorem breaches_strict_gt (latCells : List Cell) (upCellsOpt : Option (List Cell))
    (normKeys : List String) (th : ℚ) (region : String) :
    (entryFor latCells upCellsOpt normKeys th region).breaches =
      (matchedNums latCells normKeys (lowerStr (stripStr region))).countP
        (fun v => decide (th < v)) := by
  unfold entryFor
  by_cases h : normKeys.contains (lowerStr (stripStr region)) = false
  · rw [if_pos h]
    unfold matchedNums
    rw [matchedCells_nil_of_not_contains h]
    rfl
  · rw [if_neg h]
    simp only []
    rw [countP_isBreach_eq]
    rfl

/-- C10: `avg_latency` and `p95_latency` are `null` exactly when no row
matches the normalized region key; when rows match but every matched
latency value failed coercion, both fields are the float `NaN`, not
`null`. -/
theorem latency_stats_null_iff_no_match (latCells : List Cell)
    (upCellsOpt : Option (List Cell)) (normKeys : List String) (th : ℚ) (region : String) :
    ((entryFor latCells upCellsOpt normKeys th region).avg_latency = Val.null ↔
      normKeys.contains (lowerStr (stripStr region)) = false)
    ∧ ((entryFor latCells upCellsOpt normKeys th region).p95_latency = Val.null ↔
      normKeys.contains (lowerStr (stripStr region)) = false)
    ∧ (normKeys.contains (lowerStr (stripStr region)) = true →
      matchedNums latCells normKeys (lowerStr (stripStr region)) = [] →
      (entryFor latCells upCellsOpt normKeys th region).avg_latency = Val.nan
      ∧ (entryFor latCells upCellsOpt normKeys th region).p95_latency = Val.nan) := by
  by_cases h : normKeys.contains (lowerStr (stripStr region)) = false
  · have he : entryFor latCells upCellsOpt normKeys th region = nullEntry := by
      unfold entryFor
      rw [if_pos h]
    have hnotin : lowerStr (stripStr region) ∉ normKeys := by simpa using h
    refine ⟨?_, ?_, ?_⟩
    · simp [he, nullEntry, hnotin]
    · simp [he, nullEntry, hnotin]
    · intro htrue _
      rw [h] at htrue
      exact absurd htrue Bool.false_ne_true
  · have havg : (entryFor latCells upCellsOpt normKeys th region).avg_latency =
        roundVal 3 (meanVal ((matchedCells latCells normKeys
          (lowerStr (stripStr region))).map cellNum)) := by
      unfold entryFor
      rw [if_neg h]
    have hp95 : (entryFor latCells upCellsOpt normKeys th region).p95_latency =
        roundVal 3 (quantileVal ((matchedCells latCells normKeys
          (lowerStr (stripStr region))).map cellNum)) := by
      unfold entryFor
      rw [if_neg h]
    refine ⟨?_, ?_, ?_⟩
    · rw [havg]
      constructor
      · intro hnull
        exact absurd ((roundVal_eq_null_iff _ _).mp hnull) (meanVal_ne_null _)
      · intro hfalse
        exact absurd hfalse h
    · rw [hp95]
      constructor
      · intro hnull
        exact absurd ((roundVal_eq_null_iff _ _).mp hnull) (quantileVal_ne_null _)
      · intro hfalse
        exact absurd hfalse h
    · intro _ hnone
      rw [havg, hp95, meanVal_nan hnone, quantileVal_nan hnone]
      exact ⟨rfl, rfl⟩

theorem latency_stats_null_iff_no_match_witness :
    (entryFor [Cell.s "x"] none ["a"] 0 "a").avg_latency = Val.nan
    ∧ (entryFor [Cell.s "x"] none ["a"] 0 "a").p95_latency = Val.nan :=
  (latency_stats_null_iff_no_match [Cell.s "x"] none ["a"] 0 "a").2.2
    (by decide) (by decide)

/-- C5: `p95_latency` uses the linear-interpolation percentile (position
`0.95·(n-1)` between the two nearest order statistics, not nearest-rank):
on the latencies 10, 20, 30, 40, 50 the interpolated 95th percentile is
48.0, and the full handler reports exactly that. -/
theorem p95_linear_interpolation :
    quantileLinear (19 / 20) [10, 20, 30, 40, 50] = some 48
    ∧ latency_check (LoadState.loaded p95ExampleTable) ⟨["a"], 100⟩ =
      Except.ok [("a", { avg_latency := Val.num 30, p95_latency := Val.num 48,
                         avg_uptime := Val.null, breaches := 0 })] := by
  constructor
  · norm_num [quantileLinear, sortQ, insertSorted, Rat.floor, Int.toNat]
  · have hl : _find_column p95ExampleTable.cols latencyCandidates = some "latency_ms" := by
      decide
    have hr : _find_column p95ExampleTable.cols regionCandidates = some "region" := by decide
    have hu : _find_column p95ExampleTable.cols uptimeCandidates = none := by decide
    have hlat : (getColCells p95ExampleTable "latency_ms").map toNumericCell =
        [Cell.n 10, Cell.n 20, Cell.n 30, Cell.n 40, Cell.n 50] := by decide
    have hnorm : normalizeRegion (getColCells p95ExampleTable "region") =
        ["a", "a", "a", "a", "a"] := by decide
    have hkey : lowerStr (stripStr "a") = "a" := by decide
    have hmc : matchedCells [Cell.n 10, Cell.n 20, Cell.n 30, Cell.n 40, Cell.n 50]
        ["a", "a", "a", "a", "a"] "a" =
        [Cell.n 10, Cell.n 20, Cell.n 30, Cell.n 40, Cell.n 50] := by decide
    have hvals : ([Cell.n 10, Cell.n 20, Cell.n 30, Cell.n 40, Cell.n 50]).map cellNum =
        [some 10, some 20, some 30, some 40, some 50] := by decide
    have hentry : entryFor [Cell.n 10, Cell.n 20, Cell.n 30, Cell.n 40, Cell.n 50] none
        ["a", "a", "a", "a", "a"] 100 "a" =
        { avg_latency := Val.num 30, p95_latency := Val.num 48,
          avg_uptime := Val.null, breaches := 0 } := by
      simp only [entryFor, hkey]
      rw [if_neg (by decide)]
      rw [hmc, hvals]
      norm_num [meanVal, quantileVal, quantileLinear, sortQ, insertSorted, Rat.floor,
        Int.toNat, roundVal, pyRound, pyRoundInt, List.filterMap_cons, List.countP_cons,
        isBreach, Entry.mk.injEq]
    simp only [latency_check, hl, hr, hu, hlat, hnorm, Option.map_none', buildOut,
      List.foldl_cons, List.foldl_nil, dictInsert, List.any_nil, Bool.false_eq_true,
      if_false, List.nil_append, hentry]

/-- C6: the end-to-end scenario: rows `("US-East ", 100, 0.99)` and
`("us-east", 300, 99)` both match the requested key `us-east` after
trim-and-lowercase normalization, giving avg_latency 200.0, p95_latency
290.0, avg_uptime 0.49995 (raw mean 49.995 > 1.5, so divided by 100) and
one breach against threshold 150. -/
theorem end_to_end_us_east :
    latency_check (LoadState.loaded e2eExampleTable) ⟨["us-east"], 150⟩ =
      Except.ok [("us-east", { avg_latency := Val.num 200, p95_latency := Val.num 290,
                               avg_uptime := Val.num (9999 / 20000), breaches := 1 })] := by
  have hl : _find_column e2eExampleTable.cols latencyCandidates = some "latency_ms" := by
    decide
  have hr : _find_column e2eExampleTable.cols regionCandidates = some "region" := by decide
  have hu : _find_column e2eExampleTable.cols uptimeCandidates = some "uptime" := by decide
  have hlat : (getColCells e2eExampleTable "latency_ms").map toNumericCell =
      [Cell.n 100, Cell.n 300] := by decide
  have hup : (getColCells e2eExampleTable "uptime").map toNumericCell =
      [Cell.n (99 / 100), Cell.n 99] := rfl
  have hnorm : normalizeRegion (getColCells e2eExampleTable "region") =
      ["us-east", "us-east"] := by decide
  have hkey : lowerStr (stripStr "us-east") = "us-east" := by decide
  have hmcl : matchedCells [Cell.n 100, Cell.n 300] ["us-east", "us-east"] "us-east" =
      [Cell.n 100, Cell.n 300] := by decide
  have hmcu : matchedCells [Cell.n (99 / 100), Cell.n 99] ["us-east", "us-east"] "us-east" =
      [Cell.n (99 / 100), Cell.n 99] := rfl
  have hvl : ([Cell.n 100, Cell.n 300]).map cellNum = [some 100, some 300] := by decide
  have hvu : ([Cell.n (99 / 100), Cell.n 99]).map cellNum = [some (99 / 100), some 99] := rfl
  have hentry : entryFor [Cell.n 100, Cell.n 300] (some [Cell.n (99 / 100), Cell.n 99])
      ["us-east", "us-east"] 150 "us-east" =
      { avg_latency := Val.num 200, p95_latency := Val.num 290,
        avg_uptime := Val.num (9999 / 20000), breaches := 1 } := by
    simp only [entryFor, hkey]
    rw [if_neg (by decide)]
    rw [hmcl, hmcu, hvl, hvu]
    norm_num [meanVal, quantileVal, quantileLinear, sortQ, insertSorted, Rat.floor,
      Int.toNat, roundVal, pyRound, pyRoundInt, rescaleVal, List.filterMap_cons,
      List.countP_cons, isBreach, Entry.mk.injEq]
  simp only [latency_check, hl, hr, hu, hlat, hnorm, Option.map_some', hup, buildOut,
    List.foldl_cons, List.foldl_nil, dictInsert, List.any_nil, Bool.false_eq_true,
    if_false, List.nil_append, hentry]

/-- C7 (counterexample): on the `[timestamp, value]` table both roles fail,
but the raised error cites only the latency role — its detail string never
mentions `region` at all (and omits the `ping` candidate) — so the claim
that the error cites both missing roles with all candidates is false. -/
theorem schema_error_cites_only_latency :
    latency_check (LoadState.loaded badSchemaTable) ⟨["us-east"], 150⟩ =
      Except.error ⟨400, latencyErrDetail⟩
    ∧ occursIn "region".data latencyErrDetail.data = false := by
  constructor
  · have h : _find_column badSchemaTable.cols latencyCandidates = none := by decide
    simp only [latency_check, h]
  · decide

/-- C7 (amended): when the latency role cannot be resolved (as with columns
`[timestamp, value]`, where the region role also fails), the request fails
with the 400 client error about the latency column, whose detail names the
candidates latency_ms, latency, rtt, ping_ms (omitting `ping`); the region
role's failure is not reported because the latency check raises first. -/
theorem latency_resolution_failure_first (t : Table) (p : Payload)
    (h : _find_column t.cols latencyCandidates = none) :
    latency_check (LoadState.loaded t) p = Except.error ⟨400, latencyErrDetail⟩ := by
  simp only [latency_check, h]

theorem latency_resolution_failure_first_witness :
    latency_check (LoadState.loaded badSchemaTable) ⟨["eu-west"], 200⟩ =
      Except.error ⟨400, latencyErrDetail⟩ :=
  latency_resolution_failure_first badSchemaTable ⟨["eu-west"], 200⟩ (by decide)
